import Mathlib

/-!
Verification of the content-ingestion and structuring logic of the
`layouter-03` repository (`src/project/src/components/ChapterList.tsx`).

The embedding below translates, at the level of character lists, the three
relevant pieces of the source:

* `handleBulkUpload` — grouping of uploaded files by their second path
  segment, the marker search for front and back matter files, the
  `BAB <n> - <title>` folder pattern, the `<d>.<d> <title>.txt` sub-chapter
  pattern (both with JavaScript regex semantics: leftmost match, greedy
  quantifiers with backtracking, `.` not matching a newline, `$` anchored at
  the very end), file-name sorting inside a group, and the order in which
  chapter-creation requests are emitted.  File reads (`await file.text()`)
  are fallible, so the import is embedded in `Except`: an unhandled read
  failure aborts the whole handler, which the `Except` error models.
* the render section — the displayed list is the front-matter filter, then
  the body filter with 1-based derived page numbers, then the back-matter
  filter.
* `handleDragEnd` / the store's `reorderChapters` — the store itself is not
  part of the provided sources, so the reorder operation is modelled from
  the specification (Contract B) where noted.
-/

set_option maxRecDepth 8000

namespace Layouter

/-- The class `\d` of the source regexes: an ASCII decimal digit. -/
def isDigitCh (c : Char) : Bool := '0' ≤ c && c ≤ '9'

/-- The class `\s` of the source regexes, restricted to the ASCII whitespace range. -/
def isSpaceCh (c : Char) : Bool :=
  c == ' ' || c == '\t' || c == '\n' || c == '\r' || c == '\x0b' || c == '\x0c'

/-- ASCII lower-casing, as performed by `toLowerCase()` on the marker names. -/
def lowerCh (c : Char) : Char :=
  if 'A' ≤ c && c ≤ 'Z' then Char.ofNat (c.toNat + 32) else c

/-- Lower-case a whole character list. -/
def lowerL (cs : List Char) : List Char := cs.map lowerCh

/-- Whether `pat` is a leading run of `s` (character-wise). -/
def leadsWith : List Char → List Char → Bool
  | [], _ => true
  | _ :: _, [] => false
  | p :: ps, c :: cs => p == c && leadsWith ps cs

/-- Substring test `String.prototype.includes`: `pat` occurs contiguously inside `s`. -/
def hasSubL (pat : List Char) : List Char → Bool
  | [] => leadsWith pat []
  | c :: rest => leadsWith pat (c :: rest) || hasSubL pat rest

/-- Path splitting `path.split('/')` on character lists; always returns at least one segment. -/
def splitSlash : List Char → List (List Char)
  | [] => [[]]
  | c :: rest =>
    if c == '/' then [] :: splitSlash rest
    else
      match splitSlash rest with
      | s :: ss => (c :: s) :: ss
      | [] => [[c]]

/-- Value of `parseInt` on a run of decimal digits. -/
def natOfDigits (ds : List Char) : Nat :=
  ds.foldl (fun n c => n * 10 + (c.toNat - '0'.toNat)) 0

/-- Match `/BAB (\d+) - (.+)/` anchored at the head of `cs`: the literal
`"BAB "`, a maximal nonempty digit run, the literal `" - "`, then a greedy
`(.+)` which runs to the end of the string or the first newline and must be
nonempty.  Returns the parsed number and the captured title. -/
def chapterAt (cs : List Char) : Option (Nat × String) :=
  match cs with
  | 'B' :: 'A' :: 'B' :: ' ' :: rest =>
    let ds := rest.takeWhile isDigitCh
    if ds.isEmpty then none
    else
      match rest.dropWhile isDigitCh with
      | ' ' :: '-' :: ' ' :: tl =>
        let t := tl.takeWhile (fun c => !(c == '\n'))
        if t.isEmpty then none else some (natOfDigits ds, String.mk t)
      | _ => none
  | _ => none

/-- Leftmost match of `/BAB (\d+) - (.+)/`: `folderName.match(...)` tries every
start position from the left. -/
def chapterScan : List Char → Option (Nat × String)
  | [] => none
  | c :: cs =>
    match chapterAt (c :: cs) with
    | some r => some r
    | none => chapterScan cs

/-- The tail of a candidate sub-chapter name must have the shape
`(.+)\.txt$`: at least five characters, ending in the literal `".txt"`, with
no newline in the `(.+)` capture.  Returns the capture. -/
def titleFrom (tail : List Char) : Option (List Char) :=
  if 5 ≤ tail.length && tail.drop (tail.length - 4) == ['.', 't', 'x', 't']
      && (tail.take (tail.length - 4)).all (fun c => !(c == '\n')) then
    some (tail.take (tail.length - 4))
  else none

/-- Match `/(\d+\.\d+)\s+(.+)\.txt$/` anchored at the head of `cs`: maximal
digit run, a dot, maximal digit run, a maximal whitespace run which the
engine backtracks (greedily, one character at a time) against the
`(.+)\.txt$` tail.  Returns (number capture, title capture). -/
def subAt (cs : List Char) : Option (String × String) :=
  let d1 := cs.takeWhile isDigitCh
  if d1.isEmpty then none
  else
    match cs.dropWhile isDigitCh with
    | '.' :: r2 =>
      let d2 := r2.takeWhile isDigitCh
      if d2.isEmpty then none
      else
        let r3 := r2.dropWhile isDigitCh
        let ws := r3.takeWhile isSpaceCh
        let r4 := r3.dropWhile isSpaceCh
        if ws.isEmpty then none
        else
          match (List.range ws.length).findSome?
              (fun j => titleFrom (ws.drop (ws.length - j) ++ r4)) with
          | some body => some (String.mk (d1 ++ '.' :: d2), String.mk body)
          | none => none
    | _ => none

/-- Leftmost match of `/(\d+\.\d+)\s+(.+)\.txt$/`. -/
def subScan : List Char → Option (String × String)
  | [] => none
  | c :: cs =>
    match subAt (c :: cs) with
    | some r => some r
    | none => subScan cs

/-- One uploaded file: its `webkitRelativePath` and the result of
`await file.text()` — `.error` when the read rejects. -/
structure FileEntry where
  relativePath : String
  text : Except String String

/-- The file name `file.name`: the last segment of the relative path. -/
def FileEntry.nameL (f : FileEntry) : List Char :=
  (splitSlash f.relativePath.toList).getLastD []

/-- Structural role of a chapter (the `type` field). -/
inductive ChapterType
  | frontmatter
  | chapter
  | backmatter
deriving DecidableEq

/-- A sub-chapter creation request (`{title, content}`, prior to id
assignment). -/
structure SubChapterReq where
  title : String
  content : String
deriving DecidableEq

/-- A chapter creation request: the argument of `addChapter`, prior to id
assignment (`crypto.randomUUID()` is external). -/
structure ChapterReq where
  title : String
  content : String
  images : List String
  type : ChapterType
  indentation : ℚ
  lineSpacing : ℚ
  subChapters : List SubChapterReq
deriving DecidableEq

/-- The front-matter request built at `ChapterList.tsx:72-81`. -/
def fmReq (content : String) : ChapterReq :=
  ⟨"Kata Pengantar", content, [], ChapterType.frontmatter, 0, 1.5, []⟩

/-- The back-matter request built at `ChapterList.tsx:133-142`. -/
def bmReq (content : String) : ChapterReq :=
  ⟨"Penutup", content, [], ChapterType.backmatter, 0, 1.5, []⟩

/-- The body-chapter request built at `ChapterList.tsx:113-122`. -/
def chReq (title : String) (subs : List SubChapterReq) : ChapterReq :=
  ⟨title, "", [], ChapterType.chapter, 0, 1.5, subs⟩

/-- Append `f` to the group keyed `key`, or start a new group at the end:
the `Map` in `handleBulkUpload` preserves key insertion order. -/
def insertGroup : List (List Char × List FileEntry) → List Char → FileEntry →
    List (List Char × List FileEntry)
  | [], key, f => [(key, [f])]
  | (k, fs) :: rest, key, f =>
    if k == key then (k, fs ++ [f]) :: rest
    else (k, fs) :: insertGroup rest key f

/-- One step of the grouping loop (`ChapterList.tsx:52-63`): a file with
fewer than two path segments is skipped, otherwise it joins the group keyed
by the second segment. -/
def stepGroup (acc : List (List Char × List FileEntry)) (f : FileEntry) :
    List (List Char × List FileEntry) :=
  match splitSlash f.relativePath.toList with
  | _ :: second :: _ => insertGroup acc second f
  | _ => acc

/-- Fold of the grouping loop over the whole batch. -/
def groupAux (acc : List (List Char × List FileEntry)) :
    List FileEntry → List (List Char × List FileEntry)
  | [] => acc
  | f :: fs => groupAux (stepGroup acc f) fs

/-- Group files by their parent folder (second path segment), in
batch-encounter order of folders. -/
def groupByFolder (files : List FileEntry) : List (List Char × List FileEntry) :=
  groupAux [] files

/-- Lexicographic comparison of file names (character code points). -/
def leName : List Char → List Char → Bool
  | [], _ => true
  | _ :: _, [] => false
  | a :: as, b :: bs => if a == b then leName as bs else decide (a < b)

/-- Stable insertion: a later file goes after files with an equal-or-smaller
name already present. -/
def insertByName (f : FileEntry) : List FileEntry → List FileEntry
  | [] => [f]
  | g :: gs => if leName g.nameL f.nameL then g :: insertByName f gs else f :: g :: gs

/-- The sort `folderFiles.sort((a, b) => a.name.localeCompare(b.name))`, modelled as
the stable sort by code-point-lexicographic name order. -/
def sortByName (gfiles : List FileEntry) : List FileEntry :=
  gfiles.foldl (fun acc f => insertByName f acc) []

/-- The sub-chapter loop (`ChapterList.tsx:100-110`): for each file whose
name matches the sub-chapter pattern, read its text (a failing read aborts
the handler) and append `{title, content}`. -/
def subChaptersOfE : List FileEntry → Except String (List SubChapterReq)
  | [] => Except.ok []
  | f :: fs =>
    match subScan f.nameL with
    | none => subChaptersOfE fs
    | some m =>
      match f.text with
      | Except.error e => Except.error e
      | Except.ok content =>
        (subChaptersOfE fs).map (fun rest => ⟨m.2, content⟩ :: rest)

/-- Process one folder group (`ChapterList.tsx:85-123`): skip folders whose
name fails the `BAB` pattern; sort the folder's files by name; collect the
matching sub-chapters; emit a request only when at least one sub-chapter was
produced. -/
def processGroup (g : List Char × List FileEntry) :
    Except String (Option ChapterReq) :=
  match chapterScan g.1 with
  | none => Except.ok none
  | some pt =>
    match subChaptersOfE (sortByName g.2) with
    | Except.error e => Except.error e
    | Except.ok subs =>
      if subs.isEmpty then Except.ok none
      else Except.ok (some (chReq pt.2 subs))

/-- Process the groups in Map-insertion (batch-encounter) order. -/
def processGroups : List (List Char × List FileEntry) →
    Except String (List ChapterReq)
  | [] => Except.ok []
  | g :: gs =>
    match processGroup g with
    | Except.error e => Except.error e
    | Except.ok none => processGroups gs
    | Except.ok (some r) => (processGroups gs).map (fun rest => r :: rest)

/-- The scan `files.find(f => f.name.toLowerCase().includes(marker))`. -/
def findMarker (files : List FileEntry) (marker : List Char) : Option FileEntry :=
  files.find? (fun f => hasSubL marker (lowerL f.nameL))

/-- The front-matter step (`ChapterList.tsx:66-82`). -/
def frontRequests (files : List FileEntry) : Except String (List ChapterReq) :=
  match findMarker files ("kata pengantar".toList) with
  | none => Except.ok []
  | some f =>
    match f.text with
    | Except.error e => Except.error e
    | Except.ok content => Except.ok [fmReq content]

/-- The back-matter step (`ChapterList.tsx:127-143`). -/
def backRequests (files : List FileEntry) : Except String (List ChapterReq) :=
  match findMarker files ("penutup".toList) with
  | none => Except.ok []
  | some f =>
    match f.text with
    | Except.error e => Except.error e
    | Except.ok content => Except.ok [bmReq content]

/-- The handler `handleBulkUpload` as the sequence of `addChapter` arguments it issues:
front-matter request first, then the group requests in batch-encounter
folder order, then the back-matter request.  A failing `file.text()` aborts
the handler with that error (there is no catch in the source). -/
def importBatchE (files : List FileEntry) : Except String (List ChapterReq) :=
  match frontRequests files with
  | Except.error e => Except.error e
  | Except.ok fr =>
    match processGroups (groupByFolder files) with
    | Except.error e => Except.error e
    | Except.ok body =>
      match backRequests files with
      | Except.error e => Except.error e
      | Except.ok bk => Except.ok (fr ++ body ++ bk)

/-- The title a group contributes when it is valid (folder name matches and
at least one sub-chapter parses and reads); `none` when the group is
dropped. -/
def validTitle (g : List Char × List FileEntry) : Option String :=
  match chapterScan g.1 with
  | none => none
  | some pt =>
    match subChaptersOfE (sortByName g.2) with
    | Except.error _ => none
    | Except.ok subs => if subs.isEmpty then none else some pt.2

/-- The parsed numbers of the valid groups, in the order the import emits
them. -/
def emittedNumbers (files : List FileEntry) : List Nat :=
  (groupByFolder files).filterMap (fun g =>
    match chapterScan g.1 with
    | none => none
    | some pt =>
      match subChaptersOfE (sortByName g.2) with
      | Except.error _ => none
      | Except.ok subs => if subs.isEmpty then none else some pt.1)

/-- A stored chapter (the store's element type). -/
structure Chapter where
  id : String
  title : String
  content : String
  images : List String
  type : ChapterType
  indentation : ℚ
  lineSpacing : ℚ
  subChapters : List SubChapterReq
  pageNumber : Option Nat
deriving DecidableEq

/-- Segment rank: front matter before body before back matter. -/
def rank : ChapterType → Nat
  | ChapterType.frontmatter => 0
  | ChapterType.chapter => 1
  | ChapterType.backmatter => 2

/-- The `mainChapters.map((chapter, index) => ...)` numbering, as a counter
starting at `n`. -/
def numberMain (n : Nat) : List Chapter → List (Chapter × Nat)
  | [] => []
  | c :: cs => (c, n) :: numberMain (n + 1) cs

/-- The derived page numbers (`ChapterList.tsx:153,226-229`): body chapters
in list order receive `index + 1`; other chapters receive none. -/
def derivePageNumbers (l : List Chapter) : List (Chapter × Nat) :=
  numberMain 1 (l.filter (fun c => c.type == ChapterType.chapter))

/-- The rendered list (`ChapterList.tsx:152-154,214-245`): front-matter
chapters, then body chapters carrying their derived page number, then
back-matter chapters. -/
def displayList (l : List Chapter) : List Chapter :=
  l.filter (fun c => c.type == ChapterType.frontmatter)
    ++ (derivePageNumbers l).map (fun p => { p.1 with pageNumber := some p.2 })
    ++ l.filter (fun c => c.type == ChapterType.backmatter)

/-- The reorder failure of Contract B. -/
inductive ReorderError
  | invalidReorder
deriving DecidableEq

/-- Modelled from the spec: the store collaborator's `reorderChapters`
validation (Contract B of §4.2) is not part of the provided sources (the
store `useEbookStore` is external to `src/`); the spec requires the list in
exactly the given id order, and an `InvalidReorder` failure when the
supplied ids are not a permutation of the current ids. -/
def reorder (current : List Chapter) (ids : List String) :
    Except ReorderError (List Chapter) :=
  if ids.isPerm (current.map Chapter.id) then
    Except.ok (ids.filterMap (fun i => current.find? (fun c => c.id == i)))
  else Except.error ReorderError.invalidReorder

/-- The stored list after a reorder attempt: unchanged when the reorder
fails. -/
def applyReorder (current : List Chapter) (ids : List String) : List Chapter :=
  match reorder current ids with
  | Except.ok l => l
  | Except.error _ => current

/-- Demonstration chapters for the structurer-side witnesses. -/
def chF : Chapter :=
  ⟨"f1", "Kata Pengantar", "", [], ChapterType.frontmatter, 0, 1.5, [], none⟩

/-- A back-matter demonstration chapter. -/
def chBk : Chapter :=
  ⟨"b1", "Penutup", "", [], ChapterType.backmatter, 0, 1.5, [], none⟩

/-- A stored list given in invariant-violating storage order. -/
def demoC2 : List Chapter := [chBk, chF]

/-- A body demonstration chapter with id "a". -/
def chIdA : Chapter :=
  ⟨"a", "Bab Baru", "", [], ChapterType.chapter, 0, 1.5, [], none⟩

/-- A body demonstration chapter with id "b". -/
def chIdB : Chapter :=
  ⟨"b", "Bab Baru", "", [], ChapterType.chapter, 0, 1.5, [], none⟩

/-- A stored list for exercising the reorder contract. -/
def demoC4 : List Chapter := [chIdA, chIdB]

def feC6a : FileEntry := ⟨"buku/BAB 3 - Awal/3.1 Pembuka.txt", Except.ok "Isi pembuka."⟩
def feC6b : FileEntry := ⟨"buku/BAB 3 - Awal/3.2 Lanjutan.txt", Except.ok "Isi lanjutan."⟩
def feC10 : FileEntry := ⟨"buku/BAB 1 - Intro/1.1 Kata Pengantar.txt", Except.ok "teks"⟩
def feC1a : FileEntry := ⟨"buku/BAB 2 - Besar/2.1 Satu.txt", Except.ok "x"⟩
def feC1b : FileEntry := ⟨"buku/BAB 1 - Awal/1.1 Dua.txt", Except.ok "y"⟩
def feKP : FileEntry := ⟨"buku/Kata Pengantar Penulis.txt", Except.ok "Isi KP."⟩
def feDoc : FileEntry := ⟨"buku/BAB 2 - X/catatan.doc", Except.ok "catatan"⟩
def feErr : FileEntry := ⟨"buku/Kata Pengantar.txt", Except.error "boom"⟩
/-- The body request the demonstration folder parsing to 2 produces. -/
def reqBesar : ChapterReq := chReq "Besar" [⟨"Satu", "x"⟩]

/-- The body request the demonstration folder parsing to 1 produces. -/
def reqAwal : ChapterReq := chReq "Awal" [⟨"Dua", "y"⟩]

/-- A batch entry sitting directly under the upload root: relative path
`buku/<name>`. -/
def rootFile (ns : List Char) (text : String) : FileEntry :=
  ⟨String.mk ('b' :: 'u' :: 'k' :: 'u' :: '/' :: ns), Except.ok text⟩

/-- A batch entry inside the chapter folder "BAB 2 - X": relative path
`buku/BAB 2 - X/<name>`. -/
def babFile (ns : List Char) (text : String) : FileEntry :=
  ⟨String.mk ('b' :: 'u' :: 'k' :: 'u' :: '/' :: 'B' :: 'A' :: 'B' :: ' ' ::
      '2' :: ' ' :: '-' :: ' ' :: 'X' :: '/' :: ns), Except.ok text⟩

/-- The fixed root-level front-matter file used in the empty-group batches. -/
def feKPfix (kpText : String) : FileEntry :=
  ⟨"buku/Kata Pengantar.txt", Except.ok kpText⟩

lemma numberMain_map_fst (n : Nat) (cs : List Chapter) :
    (numberMain n cs).map Prod.fst = cs := by
  induction cs generalizing n with
  | nil => rfl
  | cons c cs ih => simp [numberMain, ih]

lemma numberMain_map_snd (n : Nat) (cs : List Chapter) :
    (numberMain n cs).map Prod.snd = List.range' n cs.length := by
  induction cs generalizing n with
  | nil => rfl
  | cons c cs ih => simp [numberMain, ih, List.range'_succ]

/-- C3: for every chapter list, the page-number derivation assigns exactly
the numbers `1..k` to the `k` body-type chapters in list order (the first
component is the body filter itself, so positions and relative order are
preserved), and chapters of other types are skipped and consume no
number. -/
theorem derivePageNumbers_gapfree (l : List Chapter) :
    (derivePageNumbers l).map Prod.fst
        = l.filter (fun c => c.type == ChapterType.chapter)
      ∧ (derivePageNumbers l).map Prod.snd
        = List.range' 1 (l.filter (fun c => c.type == ChapterType.chapter)).length :=
  ⟨numberMain_map_fst 1 _, numberMain_map_snd 1 _⟩

lemma mem_numberMain_fst {p : Chapter × Nat} {n : Nat} {cs : List Chapter}
    (h : p ∈ numberMain n cs) : p.1 ∈ cs := by
  induction cs generalizing n with
  | nil => simp [numberMain] at h
  | cons c cs ih =>
    simp only [numberMain, List.mem_cons] at h
    rcases h with h | h
    · simp [h]
    · exact List.mem_cons_of_mem _ (ih h)

lemma displayList_rank_pairwise (l : List Chapter) :
    (displayList l).Pairwise (fun a b => rank a.type ≤ rank b.type) := by
  have hf : ∀ c ∈ l.filter (fun c => c.type == ChapterType.frontmatter),
      rank c.type = 0 := by
    intro c hc
    have h := (List.mem_filter.1 hc).2
    simp only [beq_iff_eq] at h
    simp [h, rank]
  have hm : ∀ c ∈ (derivePageNumbers l).map
      (fun p => { p.1 with pageNumber := some p.2 }), rank c.type = 1 := by
    intro c hc
    rcases List.mem_map.1 hc with ⟨p, hp, rfl⟩
    have h1 := mem_numberMain_fst hp
    have h := (List.mem_filter.1 h1).2
    simp only [beq_iff_eq] at h
    simp [rank, h]
  have hb : ∀ c ∈ l.filter (fun c => c.type == ChapterType.backmatter),
      rank c.type = 2 := by
    intro c hc
    have h := (List.mem_filter.1 hc).2
    simp only [beq_iff_eq] at h
    simp [h, rank]
  unfold displayList
  refine List.pairwise_append.2
    ⟨List.pairwise_append.2 ⟨?_, ?_, ?_⟩, ?_, ?_⟩
  · exact List.pairwise_of_forall_mem_list
      (fun a ha b hb2 => by rw [hf a ha, hf b hb2])
  · exact List.pairwise_of_forall_mem_list
      (fun a ha b hb2 => by rw [hm a ha, hm b hb2])
  · intro a ha b hb2
    rw [hf a ha, hm b hb2]
    omega
  · exact List.pairwise_of_forall_mem_list
      (fun a ha b hb2 => by rw [hb a ha, hb b hb2])
  · intro a ha b hb2
    rcases List.mem_append.1 ha with h | h
    · rw [hf a h, hb b hb2]; omega
    · rw [hm a h, hb b hb2]; omega

/-- C2: the displayed list always satisfies the segment invariant — a
displayed chapter of strictly larger segment rank (front matter 0, body 1,
back matter 2) sits at a strictly larger index, so every front-matter index
is below every body index, which is below every back-matter index.  This
holds for every stored list, in particular after every append of creation
requests (the render section re-filters the stored list on every change). -/
theorem displayList_segment_ordered (l : List Chapter) (i j : Nat)
    (hi : i < (displayList l).length) (hj : j < (displayList l).length)
    (hlt : rank ((displayList l).get ⟨i, hi⟩).type
        < rank ((displayList l).get ⟨j, hj⟩).type) : i < j := by
  by_contra hij
  push_neg at hij
  rcases lt_or_eq_of_le hij with h | h
  · have hR := List.pairwise_iff_get.1 (displayList_rank_pairwise l)
      (Fin.mk j hj) (Fin.mk i hi) (Fin.mk_lt_mk.mpr h)
    omega
  · subst h
    exact absurd hlt (lt_irrefl _)

/-- Witness for C2: in the displayed form of `demoC2` the front-matter
chapter (rank 0, index 0) precedes the back-matter chapter (rank 2,
index 1). -/
theorem displayList_segment_ordered_witness :
    rank ((displayList demoC2).get ⟨0, by decide⟩).type
        < rank ((displayList demoC2).get ⟨1, by decide⟩).type
      ∧ (0 : Nat) < 1 :=
  ⟨by decide, displayList_segment_ordered demoC2 0 1 (by decide) (by decide)
    (by decide)⟩

lemma filterMap_find_ids (current : List Chapter) :
    ∀ ids : List String, (∀ i ∈ ids, ∃ c ∈ current, c.id = i) →
      ((ids.filterMap fun i => current.find? (fun c => c.id == i)).map
        Chapter.id) = ids := by
  intro ids
  induction ids with
  | nil => intro _; rfl
  | cons i ids ih =>
    intro h
    obtain ⟨c, hc, hid⟩ := h i (List.mem_cons_self i ids)
    have hsome : (current.find? (fun c => c.id == i)).isSome := by
      rw [List.find?_isSome]
      exact ⟨c, hc, by simp [hid]⟩
    obtain ⟨d, hd⟩ := Option.isSome_iff_exists.1 hsome
    have hdi : d.id = i := by
      have := List.find?_some hd
      simpa using this
    simp [List.filterMap_cons, hd, hdi,
      ih (fun j hj => h j (List.mem_cons_of_mem _ hj))]

/-- C4 (spec-modelled): a supplied id sequence that is not a permutation of
the current id set makes `reorder` fail with `InvalidReorder` and leaves the
stored list unchanged; a valid permutation succeeds and the output carries
exactly the supplied ids — the same id set as the input list, each id
exactly once, in the given order. -/
theorem reorder_contract (current : List Chapter) (ids : List String)
    (hnd : (current.map Chapter.id).Nodup) :
    (¬ List.Perm ids (current.map Chapter.id) →
        reorder current ids = Except.error ReorderError.invalidReorder
          ∧ applyReorder current ids = current)
    ∧ (List.Perm ids (current.map Chapter.id) →
        ∃ out, reorder current ids = Except.ok out
          ∧ out.map Chapter.id = ids ∧ ids.Nodup
          ∧ List.Perm (out.map Chapter.id) (current.map Chapter.id)) := by
  constructor
  · intro hnp
    have hfalse : ids.isPerm (current.map Chapter.id) = false := by
      rw [← Bool.not_eq_true, List.isPerm_iff]
      exact hnp
    exact ⟨by simp [reorder, hfalse], by simp [applyReorder, reorder, hfalse]⟩
  · intro hp
    have htrue : ids.isPerm (current.map Chapter.id) = true := List.isPerm_iff.2 hp
    have hmapped : ((ids.filterMap fun i =>
        current.find? (fun c => c.id == i)).map Chapter.id) = ids := by
      apply filterMap_find_ids
      intro i hi
      rcases List.mem_map.1 (hp.mem_iff.1 hi) with ⟨c, hc, hcid⟩
      exact ⟨c, hc, hcid⟩
    refine ⟨_, by simp [reorder, htrue], hmapped, (hp.nodup_iff).2 hnd, ?_⟩
    rw [hmapped]
    exact hp

/-- Witness for C4: the duplicate id sequence `["a", "a"]` is rejected and
changes nothing, and the permutation `["b", "a"]` is applied exactly. -/
theorem reorder_contract_witness :
    (reorder demoC4 ["a", "a"] = Except.error ReorderError.invalidReorder
      ∧ applyReorder demoC4 ["a", "a"] = demoC4)
    ∧ ∃ out, reorder demoC4 ["b", "a"] = Except.ok out
        ∧ out.map Chapter.id = ["b", "a"] ∧ (["b", "a"] : List String).Nodup
        ∧ List.Perm (out.map Chapter.id) (demoC4.map Chapter.id) :=
  ⟨(reorder_contract demoC4 ["a", "a"] (by decide)).1 (by decide),
   (reorder_contract demoC4 ["b", "a"] (by decide)).2 (by decide)⟩

lemma importBatchE_ok {files : List FileEntry} {reqs : List ChapterReq}
    (h : importBatchE files = Except.ok reqs) :
    ∃ fr body bk, frontRequests files = Except.ok fr
      ∧ processGroups (groupByFolder files) = Except.ok body
      ∧ backRequests files = Except.ok bk
      ∧ reqs = fr ++ body ++ bk := by
  unfold importBatchE at h
  cases h1 : frontRequests files with
  | error e => rw [h1] at h; cases h
  | ok fr =>
    rw [h1] at h
    cases h2 : processGroups (groupByFolder files) with
    | error e => rw [h2] at h; cases h
    | ok body =>
      rw [h2] at h
      cases h3 : backRequests files with
      | error e => rw [h3] at h; cases h
      | ok bk =>
        rw [h3] at h
        obtain rfl : fr ++ body ++ bk = reqs := by simpa using h
        exact ⟨fr, body, bk, rfl, rfl, rfl, rfl⟩

lemma frontRequests_ok {files : List FileEntry} {fr : List ChapterReq}
    (h : frontRequests files = Except.ok fr) :
    fr = [] ∨ ∃ f, findMarker files ("kata pengantar".toList) = some f
      ∧ ∃ content, f.text = Except.ok content ∧ fr = [fmReq content] := by
  unfold frontRequests at h
  split at h
  · left; simpa using h.symm
  · rename_i f hf
    split at h
    · cases h
    · rename_i content ht
      right
      exact ⟨f, hf, content, ht, by simpa using h.symm⟩

lemma backRequests_ok {files : List FileEntry} {bk : List ChapterReq}
    (h : backRequests files = Except.ok bk) :
    bk = [] ∨ ∃ f, findMarker files ("penutup".toList) = some f
      ∧ ∃ content, f.text = Except.ok content ∧ bk = [bmReq content] := by
  unfold backRequests at h
  split at h
  · left; simpa using h.symm
  · rename_i f hf
    split at h
    · cases h
    · rename_i content ht
      right
      exact ⟨f, hf, content, ht, by simpa using h.symm⟩

lemma processGroup_ok_some {g : List Char × List FileEntry} {r : ChapterReq}
    (h : processGroup g = Except.ok (some r)) :
    ∃ pt subs, chapterScan g.1 = some pt
      ∧ subChaptersOfE (sortByName g.2) = Except.ok subs
      ∧ subs ≠ [] ∧ r = chReq pt.2 subs := by
  unfold processGroup at h
  split at h
  · cases h
  · rename_i pt h1
    split at h
    · cases h
    · rename_i subs h2
      split at h
      · cases h
      · rename_i hs
        refine ⟨pt, subs, h1, h2, ?_, by simpa using h.symm⟩
        simpa [List.isEmpty_iff] using hs

lemma validTitle_of_processGroup_none {g : List Char × List FileEntry}
    (h : processGroup g = Except.ok none) : validTitle g = none := by
  unfold processGroup at h
  unfold validTitle
  split
  · rfl
  · rename_i pt h1
    rw [h1] at h
    split
    · rfl
    · rename_i subs h2
      rw [h2] at h
      split
      · rfl
      · rename_i hs
        simp [hs] at h

lemma validTitle_of_processGroup_some {g : List Char × List FileEntry}
    {r : ChapterReq} (h : processGroup g = Except.ok (some r)) :
    validTitle g = some r.title := by
  obtain ⟨pt, subs, h1, h2, hne, rfl⟩ := processGroup_ok_some h
  unfold validTitle
  rw [h1, h2]
  simp [List.isEmpty_iff, hne, chReq]

lemma processGroups_ok_inv {gs : List (List Char × List FileEntry)}
    {body : List ChapterReq} (h : processGroups gs = Except.ok body) :
    (∀ r ∈ body, ∃ g ∈ gs, processGroup g = Except.ok (some r))
      ∧ body.map ChapterReq.title = gs.filterMap validTitle := by
  induction gs generalizing body with
  | nil =>
    obtain rfl : ([] : List ChapterReq) = body := by
      simpa [processGroups] using h
    simp
  | cons g gs ih =>
    unfold processGroups at h
    cases h1 : processGroup g with
    | error e => rw [h1] at h; cases h
    | ok o =>
      rw [h1] at h
      cases o with
      | none =>
        obtain ⟨hmem, htitles⟩ := ih h
        refine ⟨?_, ?_⟩
        · intro r hr
          obtain ⟨g0, hg0, hP⟩ := hmem r hr
          exact ⟨g0, List.mem_cons_of_mem _ hg0, hP⟩
        · rw [List.filterMap_cons, validTitle_of_processGroup_none h1]
          exact htitles
      | some r0 =>
        cases h2 : processGroups gs with
        | error e => rw [h2] at h; simp [Except.map] at h
        | ok rest =>
          rw [h2] at h
          simp only [Except.map] at h
          obtain rfl : r0 :: rest = body := by simpa using h
          obtain ⟨hmem, htitles⟩ := ih h2
          refine ⟨?_, ?_⟩
          · intro r hr
            rcases List.mem_cons.1 hr with rfl | hr
            · exact ⟨g, List.mem_cons_self _ _, h1⟩
            · obtain ⟨g0, hg0, hP⟩ := hmem r hr
              exact ⟨g0, List.mem_cons_of_mem _ hg0, hP⟩
          · rw [List.filterMap_cons, validTitle_of_processGroup_some h1]
            simpa using htitles

lemma processGroups_ok_types {gs : List (List Char × List FileEntry)}
    {body : List ChapterReq} (h : processGroups gs = Except.ok body) :
    ∀ r ∈ body, r.type = ChapterType.chapter := by
  intro r hr
  obtain ⟨g, _, hg⟩ := (processGroups_ok_inv h).1 r hr
  obtain ⟨pt, subs, _, _, _, rfl⟩ := processGroup_ok_some hg
  rfl

lemma mem_insertByName {x f : FileEntry} {l : List FileEntry}
    (h : x ∈ insertByName f l) : x = f ∨ x ∈ l := by
  induction l with
  | nil => simpa [insertByName] using h
  | cons g gs ih =>
    unfold insertByName at h
    by_cases hle : leName g.nameL f.nameL
    · rw [if_pos hle] at h
      rcases List.mem_cons.1 h with rfl | h
      · right; exact List.mem_cons_self _ _
      · rcases ih h with h | h
        · left; exact h
        · right; exact List.mem_cons_of_mem _ h
    · rw [if_neg hle] at h
      rcases List.mem_cons.1 h with rfl | h
      · left; rfl
      · right; exact h

lemma mem_sortByName_aux :
    ∀ (fs : List FileEntry) (acc : List FileEntry) (x : FileEntry),
      x ∈ fs.foldl (fun acc f => insertByName f acc) acc → x ∈ acc ∨ x ∈ fs := by
  intro fs
  induction fs with
  | nil => intro acc x h; left; exact h
  | cons f fs ih =>
    intro acc x h
    rcases ih (insertByName f acc) x h with h2 | h2
    · rcases mem_insertByName h2 with h3 | h3
      · right; rw [h3]; exact List.mem_cons_self _ _
      · left; exact h3
    · right; exact List.mem_cons_of_mem _ h2

lemma mem_sortByName {x : FileEntry} {gfiles : List FileEntry}
    (h : x ∈ sortByName gfiles) : x ∈ gfiles := by
  rcases mem_sortByName_aux gfiles [] x h with h2 | h2
  · cases h2
  · exact h2

lemma mem_insertGroup {g : List Char × List FileEntry}
    {gs : List (List Char × List FileEntry)} {key : List Char} {f : FileEntry}
    (h : g ∈ insertGroup gs key f) :
    ∀ x ∈ g.2, (∃ g0 ∈ gs, x ∈ g0.2) ∨ x = f := by
  induction gs with
  | nil =>
    simp only [insertGroup, List.mem_singleton] at h
    subst h
    intro x hx
    simp only [List.mem_singleton] at hx
    right; exact hx
  | cons g0 gs ih =>
    obtain ⟨k, kfs⟩ := g0
    unfold insertGroup at h
    by_cases hk : (k == key) = true
    · rw [if_pos hk] at h
      rcases List.mem_cons.1 h with rfl | h
      · intro x hx
        rcases List.mem_append.1 hx with hx | hx
        · left; exact ⟨(k, kfs), List.mem_cons_self _ _, hx⟩
        · right; simpa using hx
      · intro x hx
        left; exact ⟨g, List.mem_cons_of_mem _ h, hx⟩
    · rw [if_neg hk] at h
      rcases List.mem_cons.1 h with rfl | h
      · intro x hx
        left; exact ⟨(k, kfs), List.mem_cons_self _ _, hx⟩
      · intro x hx
        rcases ih h x hx with ⟨g1, hg1, hxg⟩ | h2
        · left; exact ⟨g1, List.mem_cons_of_mem _ hg1, hxg⟩
        · right; exact h2

lemma mem_stepGroup {g : List Char × List FileEntry}
    {acc : List (List Char × List FileEntry)} {f : FileEntry}
    (h : g ∈ stepGroup acc f) :
    ∀ x ∈ g.2, (∃ g0 ∈ acc, x ∈ g0.2) ∨ x = f := by
  unfold stepGroup at h
  split at h
  · exact mem_insertGroup h
  · intro x hx
    left; exact ⟨g, h, hx⟩

lemma mem_groupAux :
    ∀ (files : List FileEntry) (acc : List (List Char × List FileEntry))
      (g : List Char × List FileEntry) (x : FileEntry),
      g ∈ groupAux acc files → x ∈ g.2 →
      (∃ g0 ∈ acc, x ∈ g0.2) ∨ x ∈ files := by
  intro files
  induction files with
  | nil => intro acc g x hg hx; left; exact ⟨g, hg, hx⟩
  | cons f fs ih =>
    intro acc g x hg hx
    rcases ih (stepGroup acc f) g x hg hx with ⟨g0, hg0, hxg⟩ | h2
    · rcases mem_stepGroup hg0 x hxg with h3 | h3
      · left; exact h3
      · right; rw [h3]; exact List.mem_cons_self _ _
    · right; exact List.mem_cons_of_mem _ h2

lemma mem_groupByFolder {files : List FileEntry}
    {g : List Char × List FileEntry} {x : FileEntry}
    (hg : g ∈ groupByFolder files) (hx : x ∈ g.2) : x ∈ files := by
  rcases mem_groupAux files [] g x hg hx with ⟨g0, hg0, _⟩ | h
  · cases hg0
  · exact h

lemma subChaptersOfE_error {fs : List FileEntry} {e : String}
    (h : subChaptersOfE fs = Except.error e) :
    ∃ f ∈ fs, f.text = Except.error e := by
  induction fs with
  | nil => cases h
  | cons f fs ih =>
    unfold subChaptersOfE at h
    split at h
    · obtain ⟨g, hg, ht⟩ := ih h
      exact ⟨g, List.mem_cons_of_mem _ hg, ht⟩
    · rename_i m hm
      split at h
      · rename_i e2 ht
        obtain rfl : e2 = e := by simpa using h
        exact ⟨f, List.mem_cons_self _ _, ht⟩
      · rename_i content ht
        cases h2 : subChaptersOfE fs with
        | error e3 =>
          rw [h2] at h
          obtain rfl : e3 = e := by simpa [Except.map] using h
          obtain ⟨g, hg, htg⟩ := ih h2
          exact ⟨g, List.mem_cons_of_mem _ hg, htg⟩
        | ok rest =>
          rw [h2] at h
          simp [Except.map] at h

lemma subChaptersOfE_ok_content {fs : List FileEntry} {subs : List SubChapterReq}
    (h : subChaptersOfE fs = Except.ok subs) :
    ∀ sc ∈ subs, ∃ f ∈ fs, f.text = Except.ok sc.content := by
  induction fs generalizing subs with
  | nil =>
    obtain rfl : ([] : List SubChapterReq) = subs := by
      simpa [subChaptersOfE] using h
    simp
  | cons f fs ih =>
    unfold subChaptersOfE at h
    split at h
    · intro sc hsc
      obtain ⟨g, hg, ht⟩ := ih h sc hsc
      exact ⟨g, List.mem_cons_of_mem _ hg, ht⟩
    · rename_i m hm
      split at h
      · cases h
      · rename_i content ht
        cases h2 : subChaptersOfE fs with
        | error e => rw [h2] at h; simp [Except.map] at h
        | ok rest =>
          rw [h2] at h
          simp only [Except.map] at h
          obtain rfl : (⟨m.2, content⟩ : SubChapterReq) :: rest = subs := by
            simpa using h
          intro sc hsc
          rcases List.mem_cons.1 hsc with rfl | hsc
          · exact ⟨f, List.mem_cons_self _ _, ht⟩
          · obtain ⟨g, hg, htg⟩ := ih h2 sc hsc
            exact ⟨g, List.mem_cons_of_mem _ hg, htg⟩

lemma subChaptersOfE_ok_eq {fs : List FileEntry} {subs : List SubChapterReq}
    (h : subChaptersOfE fs = Except.ok subs) :
    subs = fs.filterMap (fun f =>
      match subScan f.nameL, f.text with
      | some m, Except.ok t => some ⟨m.2, t⟩
      | _, _ => none) := by
  induction fs generalizing subs with
  | nil => simpa [subChaptersOfE] using h.symm
  | cons f fs ih =>
    unfold subChaptersOfE at h
    rw [List.filterMap_cons]
    split at h
    · rename_i hm
      rw [hm]
      exact ih h
    · rename_i m hm
      split at h
      · cases h
      · rename_i content ht
        cases h2 : subChaptersOfE fs with
        | error e => rw [h2] at h; simp [Except.map] at h
        | ok rest =>
          rw [h2] at h
          simp only [Except.map] at h
          obtain rfl : (⟨m.2, content⟩ : SubChapterReq) :: rest = subs := by
            simpa using h
          rw [hm, ht]
          simpa using ih h2

lemma findMarker_some {files : List FileEntry} {marker : List Char}
    {f : FileEntry} (h : findMarker files marker = some f) : f ∈ files :=
  List.mem_of_find?_eq_some h

lemma frontRequests_error {files : List FileEntry} {e : String}
    (h : frontRequests files = Except.error e) :
    ∃ f ∈ files, f.text = Except.error e := by
  unfold frontRequests at h
  split at h
  · cases h
  · rename_i f hf
    split at h
    · rename_i e2 ht
      obtain rfl : e2 = e := by simpa using h
      exact ⟨f, findMarker_some hf, ht⟩
    · cases h

lemma backRequests_error {files : List FileEntry} {e : String}
    (h : backRequests files = Except.error e) :
    ∃ f ∈ files, f.text = Except.error e := by
  unfold backRequests at h
  split at h
  · cases h
  · rename_i f hf
    split at h
    · rename_i e2 ht
      obtain rfl : e2 = e := by simpa using h
      exact ⟨f, findMarker_some hf, ht⟩
    · cases h

lemma processGroup_error {g : List Char × List FileEntry} {e : String}
    (h : processGroup g = Except.error e) :
    subChaptersOfE (sortByName g.2) = Except.error e := by
  unfold processGroup at h
  split at h
  · cases h
  · split at h
    · rename_i e2 h2
      obtain rfl : e2 = e := by simpa using h
      exact h2
    · split at h
      · cases h
      · cases h

lemma processGroups_error {gs : List (List Char × List FileEntry)} {e : String}
    (h : processGroups gs = Except.error e) :
    ∃ g ∈ gs, processGroup g = Except.error e := by
  induction gs with
  | nil => cases h
  | cons g gs ih =>
    unfold processGroups at h
    split at h
    · rename_i e2 h1
      obtain rfl : e2 = e := by simpa using h
      exact ⟨g, List.mem_cons_self _ _, h1⟩
    · obtain ⟨g0, hg0, hP⟩ := ih h
      exact ⟨g0, List.mem_cons_of_mem _ hg0, hP⟩
    · rename_i r0 h1
      cases h2 : processGroups gs with
      | error e3 =>
        rw [h2] at h
        obtain rfl : e3 = e := by simpa [Except.map] using h
        obtain ⟨g0, hg0, hP⟩ := ih h2
        exact ⟨g0, List.mem_cons_of_mem _ hg0, hP⟩
      | ok rest =>
        rw [h2] at h
        simp [Except.map] at h

lemma importBatchE_error {files : List FileEntry} {e : String}
    (h : importBatchE files = Except.error e) :
    ∃ f ∈ files, f.text = Except.error e := by
  unfold importBatchE at h
  split at h
  · rename_i e2 h1
    obtain rfl : e2 = e := by simpa using h
    exact frontRequests_error h1
  · split at h
    · rename_i e2 h2
      obtain rfl : e2 = e := by simpa using h
      obtain ⟨g, hg, hP⟩ := processGroups_error h2
      obtain ⟨f, hf, ht⟩ := subChaptersOfE_error (processGroup_error hP)
      exact ⟨f, mem_groupByFolder hg (mem_sortByName hf), ht⟩
    · split at h
      · rename_i e2 h3
        obtain rfl : e2 = e := by simpa using h
        exact backRequests_error h3
      · cases h

lemma rank_mono_get {α : Type} {tp : α → ChapterType} {l : List α}
    (hp : l.Pairwise (fun a b => rank (tp a) ≤ rank (tp b)))
    {i j : Nat} (hi : i < l.length) (hj : j < l.length)
    (hlt : rank (tp (l.get ⟨i, hi⟩)) < rank (tp (l.get ⟨j, hj⟩))) : i < j := by
  by_contra hij
  push_neg at hij
  rcases lt_or_eq_of_le hij with h | h
  · have := List.pairwise_iff_get.1 hp (Fin.mk j hj) (Fin.mk i hi)
      (Fin.mk_lt_mk.mpr h)
    omega
  · subst h
    exact absurd hlt (lt_irrefl _)

lemma importBatchE_ok_pairwise {files : List FileEntry} {reqs : List ChapterReq}
    (h : importBatchE files = Except.ok reqs) :
    reqs.Pairwise (fun a b => rank a.type ≤ rank b.type) := by
  obtain ⟨fr, body, bk, h1, h2, h3, rfl⟩ := importBatchE_ok h
  have hfr : ∀ r ∈ fr, rank r.type = 0 := by
    rcases frontRequests_ok h1 with rfl | ⟨f, _, content, _, rfl⟩
    · simp
    · intro r hr
      obtain rfl : r = fmReq content := by simpa using hr
      rfl
  have hbody : ∀ r ∈ body, rank r.type = 1 := by
    intro r hr
    rw [processGroups_ok_types h2 r hr]
    rfl
  have hbk : ∀ r ∈ bk, rank r.type = 2 := by
    rcases backRequests_ok h3 with rfl | ⟨f, _, content, _, rfl⟩
    · simp
    · intro r hr
      obtain rfl : r = bmReq content := by simpa using hr
      rfl
  refine List.pairwise_append.2
    ⟨List.pairwise_append.2 ⟨?_, ?_, ?_⟩, ?_, ?_⟩
  · exact List.pairwise_of_forall_mem_list
      (fun a ha b hb => by rw [hfr a ha, hfr b hb])
  · exact List.pairwise_of_forall_mem_list
      (fun a ha b hb => by rw [hbody a ha, hbody b hb])
  · intro a ha b hb
    rw [hfr a ha, hbody b hb]
    omega
  · exact List.pairwise_of_forall_mem_list
      (fun a ha b hb => by rw [hbk a ha, hbk b hb])
  · intro a ha b hb
    rcases List.mem_append.1 ha with h | h
    · rw [hfr a h, hbk b hb]; omega
    · rw [hbody a h, hbk b hb]; omega

/-- C1 (corrected): within one import batch the emitted request sequence is
segment-ordered — the front-matter request (if any) first, every body
request before the back-matter request (if any) — and the body requests
appear in batch-encounter order of their folders (the order in which
`groupByFolder` first met each folder, which is how the source iterates its
`Map`), not in ascending parsed-integer order. -/
theorem importBatch_requests_order {files : List FileEntry}
    {reqs : List ChapterReq} (h : importBatchE files = Except.ok reqs) :
    (∀ i j (hi : i < reqs.length) (hj : j < reqs.length),
        rank ((reqs.get ⟨i, hi⟩).type) < rank ((reqs.get ⟨j, hj⟩).type) → i < j)
    ∧ (reqs.filter (fun r => r.type == ChapterType.chapter)).map ChapterReq.title
        = (groupByFolder files).filterMap validTitle := by
  constructor
  · intro i j hi hj hlt
    exact rank_mono_get (importBatchE_ok_pairwise h) hi hj hlt
  · obtain ⟨fr, body, bk, h1, h2, h3, rfl⟩ := importBatchE_ok h
    rw [List.filter_append, List.filter_append]
    have hfr : fr.filter (fun r => r.type == ChapterType.chapter) = [] := by
      rcases frontRequests_ok h1 with rfl | ⟨f, _, content, _, rfl⟩ <;> rfl
    have hbk : bk.filter (fun r => r.type == ChapterType.chapter) = [] := by
      rcases backRequests_ok h3 with rfl | ⟨f, _, content, _, rfl⟩ <;> rfl
    have hbody : body.filter (fun r => r.type == ChapterType.chapter) = body :=
      List.filter_eq_self.2 (fun r hr => by
        rw [processGroups_ok_types h2 r hr]
        rfl)
    rw [hfr, hbody, hbk, List.nil_append, List.append_nil]
    exact (processGroups_ok_inv h2).2

/-- Witness for C1: the amended ordering facts hold on concrete batches —
the out-of-order two-folder batch, and a batch whose front-matter request
(rank 0, index 0) precedes its body request (rank 1, index 1). -/
theorem importBatch_requests_order_witness :
    ([reqBesar, reqAwal].filter (fun r => r.type == ChapterType.chapter)).map
        ChapterReq.title
      = (groupByFolder [feC1a, feC1b]).filterMap validTitle ∧ (0 : Nat) < 1 :=
  ⟨(@importBatch_requests_order [feC1a, feC1b]
      [reqBesar, reqAwal] (by rfl)).2,
   (@importBatch_requests_order [feC10]
      [fmReq "teks", chReq "Intro" [⟨"Kata Pengantar", "teks"⟩]]
      (by rfl)).1 0 1 (by decide) (by decide) (by decide)⟩

/-- C1 counterexample: in a batch whose folders are encountered with parsed
number 2 first and parsed number 1 second, the import emits the parsed-2
group's request before the parsed-1 group's request, so the parsed numbers
come out as [2, 1] — not ascending, refuting the claimed ascending
parsed-integer ordering. -/
theorem importBatch_not_number_sorted :
    importBatchE [feC1a, feC1b] = Except.ok [reqBesar, reqAwal]
      ∧ emittedNumbers [feC1a, feC1b] = [2, 1]
      ∧ ¬ List.Chain' (fun a b : Nat => a ≤ b) (emittedNumbers [feC1a, feC1b]) :=
  ⟨rfl, rfl, by
    intro hch
    rw [show emittedNumbers [feC1a, feC1b] = [2, 1] from rfl] at hch
    exact absurd (List.chain'_cons.1 hch).1 (by omega)⟩

/-- C9: every front-matter request the import creates is titled
"Kata Pengantar" and every back-matter request is titled "Penutup",
whatever the matched file's actual name is — the titles are the fixed
strings of the source and are never derived from the file name. -/
theorem marker_titles_fixed {files : List FileEntry} {reqs : List ChapterReq}
    (h : importBatchE files = Except.ok reqs) :
    ∀ r ∈ reqs, (r.type = ChapterType.frontmatter → r.title = "Kata Pengantar")
      ∧ (r.type = ChapterType.backmatter → r.title = "Penutup") := by
  obtain ⟨fr, body, bk, h1, h2, h3, rfl⟩ := importBatchE_ok h
  intro r hr
  rcases List.mem_append.1 hr with hr12 | hr3
  · rcases List.mem_append.1 hr12 with hr1 | hr2
    · rcases frontRequests_ok h1 with rfl | ⟨f, _, content, _, rfl⟩
      · cases hr1
      · obtain rfl : r = fmReq content := by simpa using hr1
        exact ⟨fun _ => rfl, fun hty => by simp [fmReq] at hty⟩
    · have hty2 := processGroups_ok_types h2 r hr2
      constructor <;> intro hty <;> rw [hty2] at hty <;>
        exact absurd hty (by decide)
  · rcases backRequests_ok h3 with rfl | ⟨f, _, content, _, rfl⟩
    · cases hr3
    · obtain rfl : r = bmReq content := by simpa using hr3
      exact ⟨fun hty => by simp [bmReq] at hty, fun _ => rfl⟩

/-- Witness for C9: on the concrete batch `[feC10]` the created front-matter
request indeed carries the fixed title. -/
theorem marker_titles_fixed_witness :
    (fmReq "teks").title = "Kata Pengantar" :=
  ((@marker_titles_fixed [feC10]
      [fmReq "teks", chReq "Intro" [⟨"Kata Pengantar", "teks"⟩]]
      (by rfl)) (fmReq "teks") (List.mem_cons_self _ _)).1 rfl

/-- C8 (amended): a failing file read aborts the import with exactly the
underlying read error of one of the batch files — the error value is passed
through unchanged, not wrapped in an `ImportIOError` naming the path — and
no content is fabricated: on success the content of every non-body request
and of every sub-chapter is the successfully read text of some batch file
(body container requests always carry the empty content by construction). -/
theorem read_error_propagation :
    (∀ (files : List FileEntry) (e : String),
        importBatchE files = Except.error e →
          ∃ f ∈ files, f.text = Except.error e)
    ∧ (∀ (files : List FileEntry) (reqs : List ChapterReq),
        importBatchE files = Except.ok reqs →
          (∀ r ∈ reqs, r.type ≠ ChapterType.chapter →
              ∃ f ∈ files, f.text = Except.ok r.content)
          ∧ (∀ r ∈ reqs, ∀ sc ∈ r.subChapters,
              ∃ f ∈ files, f.text = Except.ok sc.content)) := by
  constructor
  · intro files e h
    exact importBatchE_error h
  · intro files reqs h
    obtain ⟨fr, body, bk, h1, h2, h3, rfl⟩ := importBatchE_ok h
    constructor
    · intro r hr hty
      rcases List.mem_append.1 hr with hr12 | hr3
      · rcases List.mem_append.1 hr12 with hr1 | hr2
        · rcases frontRequests_ok h1 with rfl | ⟨f, hf, content, ht, rfl⟩
          · cases hr1
          · obtain rfl : r = fmReq content := by simpa using hr1
            exact ⟨f, findMarker_some hf, ht⟩
        · exact absurd (processGroups_ok_types h2 r hr2) hty
      · rcases backRequests_ok h3 with rfl | ⟨f, hf, content, ht, rfl⟩
        · cases hr3
        · obtain rfl : r = bmReq content := by simpa using hr3
          exact ⟨f, findMarker_some hf, ht⟩
    · intro r hr sc hsc
      rcases List.mem_append.1 hr with hr12 | hr3
      · rcases List.mem_append.1 hr12 with hr1 | hr2
        · rcases frontRequests_ok h1 with rfl | ⟨f, hf, content, ht, rfl⟩
          · cases hr1
          · obtain rfl : r = fmReq content := by simpa using hr1
            simp [fmReq] at hsc
        · obtain ⟨g, hg, hP⟩ := (processGroups_ok_inv h2).1 r hr2
          obtain ⟨pt, subs, _, hsubs, _, rfl⟩ := processGroup_ok_some hP
          have hsc2 : sc ∈ subs := by simpa [chReq] using hsc
          obtain ⟨f, hf, ht⟩ := subChaptersOfE_ok_content hsubs sc hsc2
          exact ⟨f, mem_groupByFolder hg (mem_sortByName hf), ht⟩
      · rcases backRequests_ok h3 with rfl | ⟨f, hf, content, ht, rfl⟩
        · cases hr3
        · obtain rfl : r = bmReq content := by simpa using hr3
          simp [bmReq] at hsc

/-- C8 counterexample: a rejecting read aborts the import with the raw
error value "boom"; that propagated value does not contain (name) the
offending file's path. -/
theorem read_error_not_named :
    importBatchE [feErr] = Except.error "boom"
      ∧ hasSubL ("buku/Kata Pengantar.txt".toList) ("boom".toList) = false :=
  ⟨rfl, by decide⟩

/-- Witness for C8: the amended propagation facts at concrete batches — the
failing batch surfaces the file whose read rejected, and the succeeding
batch's front-matter content is a genuinely read text. -/
theorem read_error_propagation_witness :
    (∃ f ∈ [feErr], f.text = Except.error "boom")
      ∧ ∃ f ∈ [feC10], f.text = Except.ok "teks" :=
  ⟨read_error_propagation.1 [feErr] "boom" (by rfl),
   (read_error_propagation.2 [feC10]
      [fmReq "teks", chReq "Intro" [⟨"Kata Pengantar", "teks"⟩]] (by rfl)).1
      (fmReq "teks") (List.mem_cons_self _ _) (by decide)⟩

/-- C10: a single file inside a matched `BAB` folder whose name both
contains the front-matter marker and matches the sub-chapter pattern is
emitted twice — once as the front-matter request and once as a sub-chapter
of its folder's chapter request, with the same file text as content in both
places; marker classification does not remove the file from grouping. -/
theorem marker_file_emitted_twice :
    importBatchE [feC10]
        = Except.ok [fmReq "teks", chReq "Intro" [⟨"Kata Pengantar", "teks"⟩]]
      ∧ (fmReq "teks").content = "teks"
      ∧ ((chReq "Intro" [⟨"Kata Pengantar", "teks"⟩]).subChapters).map
          SubChapterReq.content = ["teks"] :=
  ⟨rfl, rfl, rfl⟩

/-- C6: importing the folder literally named "BAB 3 - Awal" containing
"3.1 Pembuka.txt" and "3.2 Lanjutan.txt" produces exactly one chapter
request titled "Awal" with sub-chapters "Pembuka" then "Lanjutan" in that
order; and in general a matched group's sub-chapters are exactly its
name-sorted files that match the sub-chapter pattern, contributed as
`{title, content}` pairs in sorted-file order. -/
theorem import_bab3_example :
    importBatchE [feC6a, feC6b]
        = Except.ok [chReq "Awal"
            [⟨"Pembuka", "Isi pembuka."⟩, ⟨"Lanjutan", "Isi lanjutan."⟩]]
      ∧ ∀ (g : List Char × List FileEntry) (r : ChapterReq),
          processGroup g = Except.ok (some r) →
          r.subChapters = (sortByName g.2).filterMap (fun f =>
            match subScan f.nameL, f.text with
            | some m, Except.ok t => some ⟨m.2, t⟩
            | _, _ => none) := by
  constructor
  · rfl
  · intro g r hP
    obtain ⟨pt, subs, _, hsubs, _, rfl⟩ := processGroup_ok_some hP
    simpa [chReq] using subChaptersOfE_ok_eq hsubs

/-- Witness for C6: the general sorted-filterMap characterisation applied to
the concrete "BAB 3 - Awal" group. -/
theorem import_bab3_example_witness :
    (chReq "Awal"
        [⟨"Pembuka", "Isi pembuka."⟩, ⟨"Lanjutan", "Isi lanjutan."⟩]).subChapters
      = (sortByName [feC6a, feC6b]).filterMap (fun f =>
          match subScan f.nameL, f.text with
          | some m, Except.ok t => some ⟨m.2, t⟩
          | _, _ => none) :=
  import_bab3_example.2 (("BAB 3 - Awal").toList, [feC6a, feC6b])
    (chReq "Awal" [⟨"Pembuka", "Isi pembuka."⟩, ⟨"Lanjutan", "Isi lanjutan."⟩])
    (by rfl)

lemma splitSlash_no_slash {cs : List Char} (h : ('/' : Char) ∉ cs) :
    splitSlash cs = [cs] := by
  induction cs with
  | nil => rfl
  | cons c r ih =>
    have hc : (c == '/') = false := by
      rcases eq_or_ne c '/' with rfl | hne
      · exact absurd (List.mem_cons_self _ _) h
      · exact beq_eq_false_iff_ne.2 hne
    have hr : splitSlash r = [r] := ih (fun hm => h (List.mem_cons_of_mem _ hm))
    simp [splitSlash, hc, hr]

lemma rootFile_split (ns : List Char) (text : String) (h : ('/' : Char) ∉ ns) :
    splitSlash (rootFile ns text).relativePath.toList
      = [['b', 'u', 'k', 'u'], ns] := by
  show splitSlash ('b' :: 'u' :: 'k' :: 'u' :: '/' :: ns) = _
  simp [splitSlash, splitSlash_no_slash h]

lemma rootFile_nameL (ns : List Char) (text : String) (h : ('/' : Char) ∉ ns) :
    (rootFile ns text).nameL = ns := by
  unfold FileEntry.nameL
  rw [rootFile_split ns text h]
  rfl

lemma babFile_split (ns : List Char) (text : String) (h : ('/' : Char) ∉ ns) :
    splitSlash (babFile ns text).relativePath.toList
      = [['b', 'u', 'k', 'u'],
         ['B', 'A', 'B', ' ', '2', ' ', '-', ' ', 'X'], ns] := by
  show splitSlash ('b' :: 'u' :: 'k' :: 'u' :: '/' :: 'B' :: 'A' :: 'B' :: ' ' ::
      '2' :: ' ' :: '-' :: ' ' :: 'X' :: '/' :: ns) = _
  simp [splitSlash, splitSlash_no_slash h]

lemma babFile_nameL (ns : List Char) (text : String) (h : ('/' : Char) ∉ ns) :
    (babFile ns text).nameL = ns := by
  unfold FileEntry.nameL
  rw [babFile_split ns text h]
  rfl

/-- C7: a batch consisting of one root-level file whose name contains the
front-matter marker, contains no back-matter marker, and does not itself
match the chapter-folder pattern (root files are grouped under their own
name) produces exactly one creation request — a front-matter request whose
content is the file's full text — and no body or back-matter request. -/
theorem single_marker_file_import (ns : List Char) (text : String)
    (hkp : hasSubL ("kata pengantar".toList) (lowerL ns) = true)
    (hpn : hasSubL ("penutup".toList) (lowerL ns) = false)
    (hch : chapterScan ns = none)
    (hsl : ('/' : Char) ∉ ns) :
    importBatchE [rootFile ns text] = Except.ok [fmReq text] := by
  have hname := rootFile_nameL ns text hsl
  have hfind1 : findMarker [rootFile ns text] ("kata pengantar".toList)
      = some (rootFile ns text) := by
    unfold findMarker
    refine List.find?_cons_of_pos _ ?_
    show hasSubL ("kata pengantar".toList) (lowerL (rootFile ns text).nameL) = true
    rw [hname]
    exact hkp
  have hfind2 : findMarker [rootFile ns text] ("penutup".toList) = none := by
    unfold findMarker
    rw [List.find?_cons_of_neg _ ?_]
    · rfl
    · show ¬ hasSubL ("penutup".toList) (lowerL (rootFile ns text).nameL) = true
      rw [hname, hpn]
      simp
  have hfront : frontRequests [rootFile ns text] = Except.ok [fmReq text] := by
    unfold frontRequests
    rw [hfind1]
    rfl
  have hback : backRequests [rootFile ns text] = Except.ok [] := by
    unfold backRequests
    rw [hfind2]
  have hgroups : groupByFolder [rootFile ns text] = [(ns, [rootFile ns text])] := by
    show stepGroup [] (rootFile ns text) = _
    unfold stepGroup
    rw [rootFile_split ns text hsl]
    rfl
  have hbody : processGroups [(ns, [rootFile ns text])] = Except.ok [] := by
    have hg : processGroup (ns, [rootFile ns text]) = Except.ok none := by
      simp only [processGroup]
      rw [hch]
    unfold processGroups
    rw [hg]
    rfl
  unfold importBatchE
  rw [hfront, hgroups, hbody, hback]
  rfl

/-- Witness for C7: the concrete file "Kata Pengantar Penulis.txt", alone in
the batch, produces exactly the front-matter request with its text. -/
theorem single_marker_file_import_witness :
    importBatchE [rootFile ("Kata Pengantar Penulis.txt".toList) "Isi KP."]
      = Except.ok [fmReq "Isi KP."] :=
  single_marker_file_import ("Kata Pengantar Penulis.txt".toList) "Isi KP."
    (by decide) (by decide) (by decide) (by decide)

/-- C5 (amended): a folder matching the chapter pattern whose files yield no
valid sub-chapter produces no chapter request — the group is dropped
silently; the import returns no skip count (its only output is the request
sequence), and its result is identical to that of the batch without the
dropped folder's files. -/
theorem empty_group_dropped (kpText : String) (ns : List Char) (docText : String)
    (hsub : subScan ns = none)
    (hpn : hasSubL ("penutup".toList) (lowerL ns) = false)
    (hsl : ('/' : Char) ∉ ns) :
    importBatchE [feKPfix kpText, babFile ns docText] = Except.ok [fmReq kpText]
      ∧ importBatchE [feKPfix kpText, babFile ns docText]
        = importBatchE [feKPfix kpText] := by
  have hnameD : (babFile ns docText).nameL = ns := babFile_nameL ns docText hsl
  have hfind1 : findMarker [feKPfix kpText, babFile ns docText]
      ("kata pengantar".toList) = some (feKPfix kpText) := by
    unfold findMarker
    exact List.find?_cons_of_pos _ (by rfl)
  have hfind2 : findMarker [feKPfix kpText, babFile ns docText]
      ("penutup".toList) = none := by
    have hstep : findMarker [feKPfix kpText, babFile ns docText] ("penutup".toList)
        = findMarker [babFile ns docText] ("penutup".toList) := rfl
    rw [hstep]
    unfold findMarker
    rw [List.find?_cons_of_neg _ ?_]
    · rfl
    · show ¬ hasSubL ("penutup".toList) (lowerL (babFile ns docText).nameL) = true
      rw [hnameD, hpn]
      simp
  have hfront : frontRequests [feKPfix kpText, babFile ns docText]
      = Except.ok [fmReq kpText] := by
    unfold frontRequests
    rw [hfind1]
    rfl
  have hback : backRequests [feKPfix kpText, babFile ns docText]
      = Except.ok [] := by
    unfold backRequests
    rw [hfind2]
  have hgroups : groupByFolder [feKPfix kpText, babFile ns docText]
      = [("Kata Pengantar.txt".toList, [feKPfix kpText]),
         (['B', 'A', 'B', ' ', '2', ' ', '-', ' ', 'X'], [babFile ns docText])] := by
    show stepGroup (stepGroup [] (feKPfix kpText)) (babFile ns docText) = _
    unfold stepGroup
    rw [babFile_split ns docText hsl]
    rfl
  have hsubE : subChaptersOfE (sortByName [babFile ns docText]) = Except.ok [] := by
    show subChaptersOfE [babFile ns docText] = Except.ok []
    unfold subChaptersOfE
    rw [hnameD, hsub]
    rfl
  have hbody : processGroups
      [("Kata Pengantar.txt".toList, [feKPfix kpText]),
       (['B', 'A', 'B', ' ', '2', ' ', '-', ' ', 'X'], [babFile ns docText])]
      = Except.ok [] := by
    have hg1 : processGroup ("Kata Pengantar.txt".toList, [feKPfix kpText])
        = Except.ok none := rfl
    have hg2 : processGroup (['B', 'A', 'B', ' ', '2', ' ', '-', ' ', 'X'],
        [babFile ns docText]) = Except.ok none := by
      simp only [processGroup]
      rw [hsubE]
      rfl
    unfold processGroups
    rw [hg1]
    show processGroups [(['B', 'A', 'B', ' ', '2', ' ', '-', ' ', 'X'],
        [babFile ns docText])] = Except.ok []
    unfold processGroups
    rw [hg2]
    rfl
  have himp : importBatchE [feKPfix kpText, babFile ns docText]
      = Except.ok [fmReq kpText] := by
    unfold importBatchE
    rw [hfront, hgroups, hbody, hback]
    rfl
  exact ⟨himp, himp.trans
    (Eq.symm (rfl : importBatchE [feKPfix kpText] = Except.ok [fmReq kpText]))⟩

/-- Witness for C5: the concrete empty group "BAB 2 - X" containing only
"catatan.doc" is dropped and invisible in the result. -/
theorem empty_group_dropped_witness :
    importBatchE [feKPfix "Isi KP.", babFile ("catatan.doc".toList) "catatan"]
        = Except.ok [fmReq "Isi KP."]
      ∧ importBatchE [feKPfix "Isi KP.", babFile ("catatan.doc".toList) "catatan"]
        = importBatchE [feKPfix "Isi KP."] :=
  empty_group_dropped "Isi KP." ("catatan.doc".toList) "catatan"
    (by decide) (by decide) (by decide)

/-- C5 counterexample: the import's entire return value for a batch with a
skip-worthy matched folder ("BAB 2 - X" whose only file matches no
sub-chapter pattern) is identical to its return value for the batch without
that folder — the result is just the request sequence and carries no skip
count, so no nonzero skip count is returned. -/
theorem no_skip_count_returned :
    importBatchE [feKP, feDoc] = Except.ok [fmReq "Isi KP."]
      ∧ importBatchE [feKP, feDoc] = importBatchE [feKP] :=
  ⟨rfl, rfl⟩

end Layouter
